import Mathlib

/-!
# Tile-exploration game: state model of `main.cpp`

A shallow embedding of the game logic of `src/main.cpp`: the authored
passability table `tile_dir`, the rock table `rock_loc`, the key-down
handlers of the event loop, the per-frame update block and the list of
sprites drawn for a frame.

Conventions of the embedding:
* C `int` values are `Int`; loop counters that run over `[0, n)` are `Fin n`.
* The arrays `tile_dir[TILE_X][TILE_Y]` and `map_grid[TILE_X][TILE_Y]` are
  functions on `Int × Int` that are only ever read or written through a bounds
  check (`inGrid`); an access outside the array makes the step return `none`.
* `float` arithmetic is exact arithmetic on `ℚ`; a `float` to `int`
  conversion truncates toward zero (`truncToInt`).
* Every call of `draw_sprite` / `rect` is recorded as one `DrawCmd`, in call
  order.
* Only key-down events touch the game state; `should_quit` is kept as a
  field, the test that leaves the game loop is not modelled.
* The statement `display_text = 0` of the update block lacks its semicolon
  in the source; it is read as the plain assignment it stands for.
-/

namespace Game

/-! ## Constants -/

abbrev TILE_X : Nat := 5
abbrev TILE_Y : Nat := 6
abbrev ROCKS : Nat := 5

/-! ## The passability table -/

/-- The struct `ValidDirections`; every member defaults to `false`. -/
structure ValidDirections where
  left : Bool := false
  right : Bool := false
  up : Bool := false
  down : Bool := false
  deriving DecidableEq, Repr

/-- Tiles where going left is valid (the first assignment chain). -/
def left_tiles : List (Int × Int) :=
  [(1, 0), (2, 0), (3, 0), (3, 1), (1, 2), (2, 2), (4, 2),
   (2, 3), (3, 3), (4, 3), (1, 5), (2, 5), (3, 5), (4, 5)]

/-- Tiles where going right is valid (the second assignment chain). -/
def right_tiles : List (Int × Int) :=
  [(0, 0), (0, 1), (2, 0), (2, 1), (0, 2), (1, 2), (3, 2),
   (1, 4), (2, 4), (3, 4), (0, 5), (1, 5), (2, 5), (3, 5)]

/-- Tiles where going up is valid (the third assignment chain). -/
def up_tiles : List (Int × Int) :=
  [(1, 1), (2, 1), (3, 1), (4, 1), (0, 2), (2, 2), (3, 2), (4, 2),
   (2, 3), (1, 4), (3, 4), (4, 4), (0, 5), (1, 5), (2, 5), (3, 5)]

/-- Tiles where going down is valid (the fourth assignment chain). -/
def down_tiles : List (Int × Int) :=
  [(1, 0), (2, 0), (3, 0), (4, 0), (0, 1), (2, 1), (3, 1), (4, 1),
   (2, 2), (1, 3), (3, 3), (4, 3), (0, 4), (1, 4), (2, 4), (3, 4)]

/-- The table `tile_dir[x][y]` after the four assignment chains: a member is
`true` exactly when the tile is listed in the chain of that direction. -/
def tile_dir (x y : Int) : ValidDirections :=
  { left := decide ((x, y) ∈ left_tiles)
    right := decide ((x, y) ∈ right_tiles)
    up := decide ((x, y) ∈ up_tiles)
    down := decide ((x, y) ∈ down_tiles) }

/-- Index pair inside the bounds of a `[TILE_X][TILE_Y]` array. -/
def inGrid (p : Int × Int) : Prop :=
  0 ≤ p.1 ∧ p.1 < (TILE_X : Int) ∧ 0 ≤ p.2 ∧ p.2 < (TILE_Y : Int)

instance (p : Int × Int) : Decidable (inGrid p) := by
  unfold inGrid; exact inferInstance

/-! ## Rocks -/

/-- The array `rock_loc[ROCKS]`. -/
def rock_loc (i : Fin ROCKS) : Int × Int :=
  match i.val with
  | 0 => (4, 0)
  | 1 => (0, 1)
  | 2 => (0, 2)
  | 3 => (2, 4)
  | _ => (4, 5)

/-! ## Game state -/

/-- The mutable locals of `main` that make up the game state. -/
structure State where
  /-- Index of the rock hiding the money bag, `rand() % ROCKS`. -/
  money_tile : Fin ROCKS
  found : Bool
  rock_mined : Fin ROCKS → Int
  man_xy : Int × Int
  display_text : Int
  map_grid : Int → Int → Int
  should_quit : Bool

/-- The state before the game loop starts; `r` is the value returned by
`rand()`. -/
def init (r : Nat) : State :=
  { money_tile := ⟨r % ROCKS, Nat.mod_lt r (by decide)⟩
    found := false
    rock_mined := fun _ => 0
    man_xy := (2, 2)
    display_text := 0
    map_grid := fun x y => if x = 2 ∧ y = 2 then 1 else 0
    should_quit := false }

/-! ## Key-down handling -/

/-- The key symbols the `switch` distinguishes; `OTHER` is any key without
a `case`. -/
inductive Key where
  | LEFT | RIGHT | UP | DOWN | SPACE | ESCAPE | OTHER
  deriving DecidableEq, Repr

/-- Body of the `for` loop of the `SDLK_SPACE` case, for rock `i`. -/
def mine_rock (s : State) (i : Fin ROCKS) : State :=
  if s.man_xy = rock_loc i then
    { s with
      rock_mined := Function.update s.rock_mined i 1
      found := decide (i = s.money_tile) }
  else s

/-- The `switch` executed for one `SDL_KEYDOWN` event. Reading `tile_dir`
outside its bounds yields `none`. -/
def handle_keydown (k : Key) (s : State) : Option State :=
  match k with
  | .LEFT =>
    if inGrid s.man_xy then
      some (if (tile_dir s.man_xy.1 s.man_xy.2).left
        then { s with man_xy := (s.man_xy.1 - 1, s.man_xy.2) } else s)
    else none
  | .RIGHT =>
    if inGrid s.man_xy then
      some (if (tile_dir s.man_xy.1 s.man_xy.2).right
        then { s with man_xy := (s.man_xy.1 + 1, s.man_xy.2) } else s)
    else none
  | .UP =>
    if inGrid s.man_xy then
      some (if (tile_dir s.man_xy.1 s.man_xy.2).up
        then { s with man_xy := (s.man_xy.1, s.man_xy.2 - 1) } else s)
    else none
  | .DOWN =>
    if inGrid s.man_xy then
      some (if (tile_dir s.man_xy.1 s.man_xy.2).down
        then { s with man_xy := (s.man_xy.1, s.man_xy.2 + 1) } else s)
    else none
  | .SPACE => some ((List.finRange ROCKS).foldl mine_rock s)
  | .ESCAPE => some { s with should_quit := true }
  | .OTHER => some s

/-- Handling a batch of key-down events in order. -/
def handle_keys : List Key → State → Option State
  | [], s => some s
  | k :: ks, s => (handle_keydown k s).bind (handle_keys ks)

/-! ## The update block -/

/-- Body of the `for` loop of the update block, for rock `i`. -/
def prompt_rock (s : State) (i : Fin ROCKS) : State :=
  if s.man_xy = rock_loc i ∧ s.rock_mined i = 0 then
    { s with display_text := 1 }
  else s

/-- The block `update game state`. Writing `map_grid` outside its bounds
yields `none`. -/
def update (s : State) : Option State :=
  if inGrid s.man_xy then
    let s1 : State :=
      { s with map_grid := fun x y =>
          if x = s.man_xy.1 ∧ y = s.man_xy.2 then 1 else s.map_grid x y }
    let s2 : State := { s1 with display_text := 0 }
    let s3 : State := (List.finRange ROCKS).foldl prompt_rock s2
    some (if s3.found then { s3 with display_text := 2 } else s3)
  else none

/-! ## The draw list -/

/-- The sprite infos declared in `main`. -/
inductive Sprite where
  | man | map | black_tile | money_bag | rock
  | game_start | game_end | mine_with_space
  deriving DecidableEq, Repr

/-- One call of `draw_sprite` (always with the default angle `0`) or of
`rect`, with the world position it is given. -/
inductive DrawCmd where
  | sprite (info : Sprite) (pos : ℚ × ℚ)
  | rect (pos : ℚ × ℚ) (rad : ℚ × ℚ) (tint : Nat × Nat × Nat × Nat)
  deriving DecidableEq

/-- Conversion of a `float` value to `int`: truncation toward zero. -/
def truncToInt (q : ℚ) : Int := if 0 ≤ q then ⌊q⌋ else ⌈q⌉

/-- The value of `money_u`, computed once from `money_tile`. -/
def money_u (s : State) : ℚ := (((rock_loc s.money_tile).1 : ℚ) + 1 / 2) / 5

/-- The value of `money_v`, computed once from `money_tile`. -/
def money_v (s : State) : ℚ := (((rock_loc s.money_tile).2 : ℚ) + 1 / 2) / 7

/-- The value of `player_u`. -/
def player_u (s : State) : ℚ := ((s.man_xy.1 : ℚ) + 1 / 2) / 5

/-- The value of `player_v`. -/
def player_v (s : State) : ℚ := ((s.man_xy.2 : ℚ) + 1 / 2) / 7

/-- The `int coord_u` of the black-tile and rock loops, for column `i`. -/
def coord_u (i : Int) : Int := truncToInt (((i : ℚ) + 1 / 2) / 5)

/-- The `int coord_v` of the black-tile and rock loops, for row `j`. -/
def coord_v (j : Int) : Int := truncToInt (((j : ℚ) + 1 / 2) / 7)

/-- Body of the nested black-tile loop for the cell `(i, j)`. -/
def black_tile_cmd (s : State) (i j : Nat) : List DrawCmd :=
  if s.map_grid i j = 0 then
    [DrawCmd.sprite Sprite.black_tile ((coord_u i : ℚ), (coord_v j : ℚ))]
  else []

/-- The nested loop drawing a black tile over every cell whose `map_grid`
entry is `0`. -/
def black_tile_cmds (s : State) : List DrawCmd :=
  (List.range TILE_X).flatMap fun i =>
    (List.range TILE_Y).flatMap fun j => black_tile_cmd s i j

/-- The loop drawing a rock when it is not mined and its tile is unveiled. -/
def rock_cmds (s : State) : List DrawCmd :=
  (List.finRange ROCKS).flatMap fun i =>
    if s.rock_mined i = 0 ∧ s.map_grid (rock_loc i).1 (rock_loc i).2 ≠ 0 then
      [DrawCmd.sprite Sprite.rock
        ((coord_u (rock_loc i).1 : ℚ), (coord_v (rock_loc i).2 : ℚ))]
    else []

/-- The `switch (display_text)` choosing the text sprite. -/
def display_sprite (display_text : Int) : Sprite :=
  if display_text = 0 then Sprite.game_start
  else if display_text = 1 then Sprite.mine_with_space
  else Sprite.game_end

/-- The value of `camera.radius` after the aspect-ratio correction. -/
def camera_radius : ℚ × ℚ := (10 * ((128 * 5 : ℚ) / (128 * (6 + 1))), 10)

/-- The block `draw game state`: the calls of `draw_sprite` and `rect` in
order. The variable `mouse` has no live declaration in the source and is
taken as a parameter. -/
def draw (mouse : ℚ × ℚ) (s : State) : List DrawCmd :=
  [DrawCmd.sprite Sprite.map (0, 0),
   DrawCmd.sprite Sprite.man (player_u s, player_v s),
   DrawCmd.sprite Sprite.money_bag (money_u s, money_v s)]
  ++ black_tile_cmds s
  ++ rock_cmds s
  ++ [DrawCmd.sprite (display_sprite s.display_text) (1 / 2, (13 / 2) / 7),
      DrawCmd.rect (0, 0) (4, 4) (0xff, 0x00, 0x00, 0xff),
      DrawCmd.rect (mouse.1 * camera_radius.1 + 0, mouse.2 * camera_radius.2 + 0)
        (4, 4) (0xff, 0xff, 0xff, 0x88)]

/-! ## Vocabulary of the specification -/

/-- The four move directions of the specification. -/
inductive Direction where
  | left | right | up | down
  deriving DecidableEq, Repr

/-- The arrow key bound to a direction. -/
def Direction.key : Direction → Key
  | .left => Key.LEFT
  | .right => Key.RIGHT
  | .up => Key.UP
  | .down => Key.DOWN

/-- The unit offset of a direction: left `x-1`, right `x+1`, up `y-1`,
down `y+1`. -/
def Direction.offset : Direction → Int × Int
  | .left => (-1, 0)
  | .right => (1, 0)
  | .up => (0, -1)
  | .down => (0, 1)

/-- The entry `passable[p][d]` of the authored table. -/
def passable (p : Int × Int) : Direction → Bool
  | .left => (tile_dir p.1 p.2).left
  | .right => (tile_dir p.1 p.2).right
  | .up => (tile_dir p.1 p.2).up
  | .down => (tile_dir p.1 p.2).down

/-- One step of the game loop that touches the game state: a key-down event
or the update block. -/
inductive Action where
  | keydown (k : Key)
  | tick
  deriving DecidableEq, Repr

/-- Effect of one action. -/
def step : Action → State → Option State
  | .keydown k, s => handle_keydown k s
  | .tick, s => update s

/-- Effect of a finite sequence of actions, in order. -/
def run : List Action → State → Option State
  | [], s => some s
  | a :: as, s => (step a s).bind (run as)

/-- States the game can be in: those produced from an initial state by some
finite sequence of key-down events and update blocks. -/
def Reachable (s : State) : Prop :=
  ∃ (r : Nat) (as : List Action), run as (init r) = some s

/-- The status of the specification. -/
inductive Status where
  | Start | PromptInteract | End
  deriving DecidableEq, Repr

/-- The status a value of `display_text` stands for, read off the `switch`
that picks the text sprite: `0` is the start text, `1` the prompt to mine,
anything else the end text. -/
def Status.ofDisplayText (t : Int) : Status :=
  match display_sprite t with
  | Sprite.game_start => Status.Start
  | Sprite.mine_with_space => Status.PromptInteract
  | _ => Status.End

/-- The status precedence as the specification words it: `End` when the
reward is found; else `PromptInteract` when some obstacle lies at the
player position and is not cleared; else `Start`. -/
def status_spec (s : State) : Status :=
  if s.found = true then Status.End
  else if ∃ i : Fin ROCKS, rock_loc i = s.man_xy ∧ s.rock_mined i = 0 then
    Status.PromptInteract
  else Status.Start

/-- Recognises a black-tile sprite in the draw list. -/
def is_black_tile : DrawCmd → Bool
  | .sprite Sprite.black_tile _ => true
  | _ => false

/-- The cells of the grid in the order the black-tile loop visits them. -/
def grid_cells : List (Nat × Nat) :=
  (List.range TILE_X).flatMap fun i => (List.range TILE_Y).map fun j => (i, j)

/-- Number of discovered cells: grid cells whose `map_grid` entry is not
`0`. -/
def discovered_count (s : State) : Nat :=
  grid_cells.countP fun c => decide (s.map_grid c.1 c.2 ≠ 0)

/-- The undiscovered cells, in loop order. -/
def undiscovered_cells (s : State) : List (Nat × Nat) :=
  grid_cells.filter fun c => decide (s.map_grid c.1 c.2 = 0)

/-- The state after mining rock `k`: the result of the body of the
`SDLK_SPACE` loop when its condition holds for `k`. -/
def mined (k : Fin ROCKS) (s : State) : State :=
  { s with
    rock_mined := Function.update s.rock_mined k 1
    found := decide (k = s.money_tile) }

/-- The value the update block leaves in `display_text`. -/
def next_display_text (s : State) : Int :=
  if s.found = true then 2
  else if ∃ i : Fin ROCKS, s.man_xy = rock_loc i ∧ s.rock_mined i = 0 then 1
  else 0

/-- The black-tile sprite the loop body emits for the cell `c`. -/
def black_tile_of (c : Nat × Nat) : DrawCmd :=
  DrawCmd.sprite Sprite.black_tile ((coord_u c.1 : ℚ), (coord_v c.2 : ℚ))

/-- The horizontally adjacent pairs `(A, B)`, `B` right of `A`, where the
table allows exactly one of right from `A` and left from `B`. -/
def one_way_pairs : List ((Int × Int) × (Int × Int)) :=
  [((0, 1), (1, 1)), ((1, 4), (2, 4)), ((2, 4), (3, 4)), ((3, 4), (4, 4)),
   ((1, 0), (2, 0)), ((1, 3), (2, 3)), ((2, 3), (3, 3)), ((3, 3), (4, 3))]

/-- Following a list of moves over the authored table from the cell `p`:
each move must start inside the grid and be passable there, and then applies
its unit offset; a move that is not passable gives `none`. -/
def walk : List Direction → Int × Int → Option (Int × Int)
  | [], p => some p
  | d :: ds, p =>
    if inGrid p ∧ passable p d = true then
      walk ds (p.1 + d.offset.1, p.2 + d.offset.2)
    else none

/-- A list of moves leading from the start cell `(2,2)` to the cell of rock
`k`. -/
def rock_path (k : Fin ROCKS) : List Direction :=
  match k.val with
  | 0 => [.up, .right, .down, .right, .up, .up]
  | 1 => [.left, .left, .up]
  | 2 => [.left, .left]
  | 3 => [.down, .left, .down, .right]
  | _ => [.down, .left, .down, .right, .right, .down, .right]

/-! ## Key-down handlers for the arrow keys -/

/-- An arrow key, in closed form: the player moves by the unit offset when the
table allows the direction, and nothing else changes. -/
theorem handle_keydown_direction (s : State) (d : Direction)
    (h : inGrid s.man_xy) :
    handle_keydown d.key s =
      some { s with
        man_xy :=
          if passable s.man_xy d = true then
            (s.man_xy.1 + d.offset.1, s.man_xy.2 + d.offset.2)
          else s.man_xy } := by
  cases d <;>
    simp only [Direction.key, handle_keydown, h, if_true, passable,
      Direction.offset] <;>
    split <;> simp [Int.sub_eq_add_neg]

/-- C1: with the player at a position `p` inside the grid, one key-down event
for direction `d` leaves the state unchanged when `passable[p][d]` is false,
and otherwise changes only the player position, to `p` plus the unit offset
of `d`. -/
theorem keydown_direction_moves (s : State) (d : Direction)
    (h : inGrid s.man_xy) :
    handle_keydown d.key s =
      some { s with
        man_xy :=
          if passable s.man_xy d = true then
            (s.man_xy.1 + d.offset.1, s.man_xy.2 + d.offset.2)
          else s.man_xy } :=
  handle_keydown_direction s d h

/-- C1 at the start position, direction up: the player moves from `(2,2)` to
`(2,1)`. -/
theorem keydown_direction_moves_witness :
    inGrid (init 0).man_xy ∧
    handle_keydown Direction.up.key (init 0) =
      some { init 0 with
        man_xy :=
          if passable (init 0).man_xy Direction.up = true then
            ((init 0).man_xy.1 + Direction.up.offset.1,
              (init 0).man_xy.2 + Direction.up.offset.2)
          else (init 0).man_xy } :=
  ⟨by decide, keydown_direction_moves (init 0) Direction.up (by decide)⟩

/-! ## The interact key -/

theorem rock_loc_injective : ∀ i j : Fin ROCKS, rock_loc i = rock_loc j → i = j := by
  decide

theorem mine_rock_of_at (k : Fin ROCKS) (s : State) (h : s.man_xy = rock_loc k)
    (i : Fin ROCKS) : mine_rock s i = if i = k then mined k s else s := by
  unfold mine_rock
  by_cases hik : i = k
  · subst hik; simp [h, mined]
  · have : ¬ rock_loc k = rock_loc i := fun e => hik (rock_loc_injective _ _ e).symm
    simp [h, this, hik]

theorem mined_mined (k : Fin ROCKS) (s : State) : mined k (mined k s) = mined k s := by
  simp [mined]

theorem foldl_mine_rock_of_at (k : Fin ROCKS) (l : List (Fin ROCKS)) :
    ∀ s : State, s.man_xy = rock_loc k →
      l.foldl mine_rock s = if k ∈ l then mined k s else s := by
  induction l with
  | nil => intro s _; simp
  | cons i l ih =>
    intro s h
    rw [List.foldl_cons, mine_rock_of_at k s h]
    by_cases hik : i = k
    · subst hik
      rw [if_pos rfl, ih _ (by simpa [mined] using h)]
      simp [mined_mined]
    · rw [if_neg hik, ih s h]
      have : ¬ k = i := fun e => hik e.symm
      simp [this]

theorem foldl_mine_rock_of_not_at (l : List (Fin ROCKS)) (s : State)
    (h : ∀ i : Fin ROCKS, s.man_xy ≠ rock_loc i) : l.foldl mine_rock s = s := by
  induction l with
  | nil => rfl
  | cons i l ih => rw [List.foldl_cons]; simpa [mine_rock, h i] using ih

/-- The interact key on the cell of rock `k` mines exactly that rock. -/
theorem handle_space_at (k : Fin ROCKS) (s : State) (h : s.man_xy = rock_loc k) :
    handle_keydown Key.SPACE s = some (mined k s) := by
  simp [handle_keydown, foldl_mine_rock_of_at k _ s h, List.mem_finRange]

/-- The interact key away from every rock changes nothing. -/
theorem handle_space_off (s : State) (h : ∀ i : Fin ROCKS, s.man_xy ≠ rock_loc i) :
    handle_keydown Key.SPACE s = some s := by
  simp [handle_keydown, foldl_mine_rock_of_not_at _ s h]

/-- C2 (the code resets the flag): with the money bag under rock 2 at `(0,2)`,
the keys left, left, space find the reward, and the further keys up, space,
which mine rock 1 at `(0,1)`, set `found` back to `false`. -/
theorem found_reset_by_other_rock :
    (handle_keys [Key.LEFT, Key.LEFT, Key.SPACE] (init 2)).map State.found
      = some true ∧
    (handle_keys [Key.LEFT, Key.LEFT, Key.SPACE, Key.UP, Key.SPACE]
      (init 2)).map State.found = some false := by
  decide

/-- C3: when the player stands on the cell of the rock that hides the
reward, one interact key-down sets `found`, marks that rock mined, and gives
a state that a second interact key-down leaves entirely unchanged. -/
theorem interact_on_reward_idempotent (s : State)
    (h : s.man_xy = rock_loc s.money_tile) :
    ∃ s1 : State, handle_keydown Key.SPACE s = some s1 ∧
      s1.found = true ∧ s1.rock_mined s.money_tile = 1 ∧
      handle_keydown Key.SPACE s1 = some s1 := by
  refine ⟨mined s.money_tile s, handle_space_at _ s h, by simp [mined],
    by simp [mined], ?_⟩
  rw [handle_space_at s.money_tile (mined s.money_tile s) (by simpa [mined] using h)]
  rw [mined_mined]

/-- C3 on a state with the player on rock 1 at `(0,1)`, which hides the
reward. -/
theorem interact_on_reward_idempotent_witness :
    ({ init 1 with man_xy := (0, 1) } : State).man_xy
      = rock_loc ({ init 1 with man_xy := (0, 1) } : State).money_tile ∧
    ∃ s1 : State,
      handle_keydown Key.SPACE { init 1 with man_xy := (0, 1) } = some s1 ∧
      s1.found = true ∧
      s1.rock_mined ({ init 1 with man_xy := (0, 1) } : State).money_tile = 1 ∧
      handle_keydown Key.SPACE s1 = some s1 :=
  ⟨by decide, interact_on_reward_idempotent { init 1 with man_xy := (0, 1) } (by decide)⟩

/-! ## The update block -/

theorem foldl_prompt_rock (l : List (Fin ROCKS)) :
    ∀ s : State, l.foldl prompt_rock s =
      { s with
        display_text :=
          if ∃ i ∈ l, s.man_xy = rock_loc i ∧ s.rock_mined i = 0 then 1
          else s.display_text } := by
  induction l with
  | nil => intro s; simp
  | cons i l ih =>
    intro s
    rw [List.foldl_cons, ih]
    unfold prompt_rock
    by_cases hi : s.man_xy = rock_loc i ∧ s.rock_mined i = 0
    · simp [hi]
    · rw [if_neg hi]
      simp only [List.mem_cons, exists_eq_or_imp, hi, false_or]

/-- The update block, in closed form: it marks the player cell in `map_grid`
and recomputes `display_text`; nothing else changes. -/
theorem update_eq (s : State) (h : inGrid s.man_xy) :
    update s = some { s with
      map_grid := fun x y =>
        if x = s.man_xy.1 ∧ y = s.man_xy.2 then 1 else s.map_grid x y
      display_text := next_display_text s } := by
  unfold update next_display_text
  simp only [if_pos h, foldl_prompt_rock, List.mem_finRange, true_and]
  by_cases hf : s.found = true
  · simp [hf]
  · simp [hf]

/-- C4: for a state with the player inside the grid, whatever value
`display_text` held before, the update block leaves the status `End` when
`found` is true; otherwise `PromptInteract` when some rock lies at the player
position and is not mined; otherwise `Start`. -/
theorem update_status_precedence (s : State) (prev : Int)
    (h : inGrid s.man_xy) :
    ∃ s1 : State, update { s with display_text := prev } = some s1 ∧
      Status.ofDisplayText s1.display_text = status_spec s := by
  refine ⟨_, update_eq { s with display_text := prev } h, ?_⟩
  simp only [next_display_text, status_spec]
  by_cases hf : s.found = true
  · simp [hf, Status.ofDisplayText, display_sprite]
  · by_cases hr : ∃ i : Fin ROCKS, rock_loc i = s.man_xy ∧ s.rock_mined i = 0
    · have hr2 : ∃ i : Fin ROCKS, s.man_xy = rock_loc i ∧ s.rock_mined i = 0 := by
        obtain ⟨i, h1, h2⟩ := hr
        exact ⟨i, h1.symm, h2⟩
      simp [hf, hr, hr2, Status.ofDisplayText, display_sprite]
    · have hr2 : ¬ ∃ i : Fin ROCKS, s.man_xy = rock_loc i ∧ s.rock_mined i = 0 := by
        rintro ⟨i, h1, h2⟩
        exact hr ⟨i, h1.symm, h2⟩
      simp [hf, hr, hr2, Status.ofDisplayText, display_sprite]

/-- C4 on a state with the reward found and the player on the unmined rock 0
at `(4,0)`, coming from the prompt text: the status is `End`. -/
theorem update_status_precedence_witness :
    inGrid ({ init 1 with man_xy := (4, 0), found := true } : State).man_xy ∧
    ∃ s1 : State,
      update { ({ init 1 with man_xy := (4, 0), found := true } : State) with
        display_text := 1 } = some s1 ∧
      Status.ofDisplayText s1.display_text
        = status_spec { init 1 with man_xy := (4, 0), found := true } :=
  ⟨by decide,
    update_status_precedence { init 1 with man_xy := (4, 0), found := true } 1
      (by decide)⟩

/-- With the reward found the specified status is `End` although the player
stands on the unmined rock 0. -/
theorem status_spec_found_on_rock :
    status_spec { init 1 with man_xy := (4, 0), found := true } = Status.End ∧
    ({ init 1 with man_xy := (4, 0), found := true } : State).man_xy = rock_loc 0 ∧
    ({ init 1 with man_xy := (4, 0), found := true } : State).rock_mined 0 = 0 := by
  decide

/-! ## The player stays inside the grid -/

/-- No passable direction of the authored table leads off the grid. -/
theorem passable_stays_inGrid (p : Int × Int) (d : Direction) (h : inGrid p)
    (hp : passable p d = true) :
    inGrid (p.1 + d.offset.1, p.2 + d.offset.2) := by
  obtain ⟨x, y⟩ := p
  simp only [inGrid, Nat.cast_ofNat] at h
  obtain ⟨hx0, hx1, hy0, hy1⟩ := h
  interval_cases x <;> interval_cases y <;> cases d <;> revert hp <;> decide

theorem foldl_mine_rock_man_xy (l : List (Fin ROCKS)) :
    ∀ s : State, (l.foldl mine_rock s).man_xy = s.man_xy := by
  induction l with
  | nil => intro s; rfl
  | cons i l ih =>
    intro s
    rw [List.foldl_cons, ih]
    unfold mine_rock
    split <;> rfl

theorem foldl_mine_rock_map_grid (l : List (Fin ROCKS)) :
    ∀ s : State, (l.foldl mine_rock s).map_grid = s.map_grid := by
  induction l with
  | nil => intro s; rfl
  | cons i l ih =>
    intro s
    rw [List.foldl_cons, ih]
    unfold mine_rock
    split <;> rfl

/-- A key-down event handled with the player inside the grid makes no
out-of-bounds access, keeps the player inside the grid and leaves `map_grid`
alone. -/
theorem handle_keydown_inGrid (k : Key) (s : State) (h : inGrid s.man_xy) :
    ∃ s1 : State, handle_keydown k s = some s1 ∧ inGrid s1.man_xy ∧
      s1.map_grid = s.map_grid := by
  have hd : ∀ d : Direction, ∃ s1 : State,
      handle_keydown d.key s = some s1 ∧ inGrid s1.man_xy ∧
        s1.map_grid = s.map_grid := by
    intro d
    refine ⟨_, handle_keydown_direction s d h, ?_, rfl⟩
    by_cases hp : passable s.man_xy d = true
    · simpa [hp] using passable_stays_inGrid s.man_xy d h hp
    · simpa [hp] using h
  cases k with
  | LEFT => exact hd Direction.left
  | RIGHT => exact hd Direction.right
  | UP => exact hd Direction.up
  | DOWN => exact hd Direction.down
  | SPACE =>
    refine ⟨_, rfl, ?_, foldl_mine_rock_map_grid _ s⟩
    rw [foldl_mine_rock_man_xy]
    exact h
  | ESCAPE => exact ⟨_, rfl, h, rfl⟩
  | OTHER => exact ⟨_, rfl, h, rfl⟩

theorem handle_keys_inGrid (ks : List Key) :
    ∀ s : State, inGrid s.man_xy →
      ∃ s1 : State, handle_keys ks s = some s1 ∧ inGrid s1.man_xy ∧
        s1.map_grid = s.map_grid := by
  induction ks with
  | nil => intro s h; exact ⟨s, rfl, h, rfl⟩
  | cons k ks ih =>
    intro s h
    obtain ⟨s1, h1, hg1, hm1⟩ := handle_keydown_inGrid k s h
    obtain ⟨s2, h2, hg2, hm2⟩ := ih s1 hg1
    exact ⟨s2, by simp [handle_keys, h1, h2], hg2, hm2.trans hm1⟩

theorem step_inGrid (a : Action) (s : State) (h : inGrid s.man_xy) :
    ∃ s1 : State, step a s = some s1 ∧ inGrid s1.man_xy := by
  cases a with
  | keydown k =>
    obtain ⟨s1, h1, hg1, _⟩ := handle_keydown_inGrid k s h
    exact ⟨s1, h1, hg1⟩
  | tick => exact ⟨_, update_eq s h, h⟩

theorem run_inGrid (as : List Action) :
    ∀ s : State, inGrid s.man_xy →
      ∃ s1 : State, run as s = some s1 ∧ inGrid s1.man_xy := by
  induction as with
  | nil => intro s h; exact ⟨s, rfl, h⟩
  | cons a as ih =>
    intro s h
    obtain ⟨s1, h1, hg1⟩ := step_inGrid a s h
    obtain ⟨s2, h2, hg2⟩ := ih s1 hg1
    exact ⟨s2, by simp [run, h1, h2], hg2⟩

theorem init_inGrid (r : Nat) : inGrid (init r).man_xy := by
  simp [init, inGrid]

theorem reachable_inGrid (s : State) (h : Reachable s) : inGrid s.man_xy := by
  obtain ⟨r, as, hrun⟩ := h
  obtain ⟨s1, h1, hg1⟩ := run_inGrid as (init r) (init_inGrid r)
  rw [h1] at hrun
  cases hrun
  exact hg1

/-- C10: from the initial state, for any outcome of `rand()`, every finite
sequence of key-down events and update blocks runs without an out-of-bounds
access to `tile_dir` or `map_grid`, and ends with the player inside the grid:
`x` in `[0,5)` and `y` in `[0,6)`. -/
theorem player_stays_in_grid (r : Nat) (as : List Action) :
    ∃ s : State, run as (init r) = some s ∧
      0 ≤ s.man_xy.1 ∧ s.man_xy.1 < 5 ∧ 0 ≤ s.man_xy.2 ∧ s.man_xy.2 < 6 := by
  obtain ⟨s1, h1, hg1⟩ := run_inGrid as (init r) (init_inGrid r)
  exact ⟨s1, h1, by simpa [inGrid] using hg1⟩

/-! ## Discovery of cells -/

/-- C5 (as claimed, refuted): in the frame that handles the batch left, left
from the initial state, the player moves onto `(1,2)` and then onto `(0,2)`;
when the frame ends `(0,2)` is discovered but `(1,2)` is not. -/
theorem crossed_cell_not_discovered :
    (handle_keys [Key.LEFT] (init 0)).map State.man_xy = some (1, 2) ∧
    (handle_keys [Key.LEFT, Key.LEFT] (init 0)).map State.man_xy = some (0, 2) ∧
    ((handle_keys [Key.LEFT, Key.LEFT] (init 0)).bind update).map
      (fun s => (s.map_grid 0 2, s.map_grid 1 2)) = some (1, 0) := by
  decide

/-- C5 (amended): for a reachable state and any batch of key-down events, the
batch and the update block after it run without fault; when the frame ends
the cell the player occupies after the batch is discovered, and every cell
discovered before the frame is still discovered. -/
theorem frame_discovers_final_cell (s : State) (ks : List Key)
    (h : Reachable s) :
    ∃ s1 s2 : State, handle_keys ks s = some s1 ∧ update s1 = some s2 ∧
      s2.man_xy = s1.man_xy ∧
      s2.map_grid s1.man_xy.1 s1.man_xy.2 = 1 ∧
      ∀ x y : Int, s.map_grid x y ≠ 0 → s2.map_grid x y ≠ 0 := by
  obtain ⟨s1, h1, hg1, hm1⟩ := handle_keys_inGrid ks s (reachable_inGrid s h)
  refine ⟨s1, _, h1, update_eq s1 hg1, rfl, by simp, ?_⟩
  intro x y hxy
  simp only [hm1]
  split
  · decide
  · exact hxy

/-- C5 (amended) on the initial state and the batch left, left. -/
theorem frame_discovers_final_cell_witness :
    Reachable (init 0) ∧
    ∃ s1 s2 : State,
      handle_keys [Key.LEFT, Key.LEFT] (init 0) = some s1 ∧
      update s1 = some s2 ∧
      s2.man_xy = s1.man_xy ∧
      s2.map_grid s1.man_xy.1 s1.man_xy.2 = 1 ∧
      ∀ x y : Int, (init 0).map_grid x y ≠ 0 → s2.map_grid x y ≠ 0 :=
  ⟨⟨0, [], rfl⟩,
    frame_discovers_final_cell (init 0) [Key.LEFT, Key.LEFT] ⟨0, [], rfl⟩⟩

/-! ## The scenario of two up keys -/

/-- The up key at a cell whose table entry allows going up. -/
theorem handle_up_at (s : State) (x y : Int) (h : s.man_xy = (x, y))
    (hg : inGrid (x, y)) (hp : (tile_dir x y).up = true) :
    handle_keydown Key.UP s = some { s with man_xy := (x, y - 1) } := by
  simp [handle_keydown, h, hg, hp]

/-- The update block keeps the player where it is and marks its cell. -/
theorem update_marks_player_cell (s : State) (h : inGrid s.man_xy) :
    ∃ s2 : State, update s = some s2 ∧ s2.man_xy = s.man_xy ∧
      s2.map_grid s.man_xy.1 s.man_xy.2 = 1 :=
  ⟨_, update_eq s h, rfl, by simp⟩

/-- C6 (as claimed, refuted): the authored table has `tile_dir[2][1].up` set,
and after an up key-down, the update block and a second up key-down the
player is at `(2,0)`, not at `(2,1)`. -/
theorem second_up_moves :
    (tile_dir 2 1).up = true ∧
    (run [Action.keydown Key.UP, Action.tick, Action.keydown Key.UP]
      (init 0)).map State.man_xy = some (2, 0) ∧
    ((2, 0) : Int × Int) ≠ (2, 1) := by
  decide

/-- C6 (amended): from the initial state, for any outcome of `rand()`, an up
key-down moves the player to `(2,1)`, the update block of that frame marks
`(2,1)` discovered, and a second up key-down moves the player on to `(2,0)`,
the authored table having `tile_dir[2][1].up` set. -/
theorem up_twice_scenario (r : Nat) :
    (init r).man_xy = (2, 2) ∧ passable (2, 2) Direction.up = true ∧
    passable (2, 1) Direction.up = true ∧
    ∃ s1 s2 s3 : State,
      handle_keydown Key.UP (init r) = some s1 ∧ s1.man_xy = (2, 1) ∧
      update s1 = some s2 ∧ s2.man_xy = (2, 1) ∧ s2.map_grid 2 1 = 1 ∧
      handle_keydown Key.UP s2 = some s3 ∧ s3.man_xy = (2, 0) := by
  refine ⟨rfl, by decide, by decide, ?_⟩
  have h1 := handle_up_at (init r) 2 2 rfl (by decide) (by decide)
  obtain ⟨s2, hu, hxy, hmg⟩ :=
    update_marks_player_cell { init r with man_xy := (2, 2 - 1) } (by simp [inGrid])
  have hxy2 : s2.man_xy = (2, 1) := hxy
  exact ⟨_, s2, _, h1, rfl, hu, hxy2, hmg,
    handle_up_at s2 2 1 hxy2 (by decide) (by decide), rfl⟩

/-! ## The draw list -/

theorem black_tile_row (s : State) (i : Nat) (l : List Nat) :
    l.flatMap (fun j => black_tile_cmd s i j) =
      ((l.map fun j => (i, j)).filter
        fun c => decide (s.map_grid c.1 c.2 = 0)).map black_tile_of := by
  induction l with
  | nil => rfl
  | cons j l ih =>
    rw [List.flatMap_cons, ih, List.map_cons, List.filter_cons]
    by_cases hz : s.map_grid i j = 0
    · simp [black_tile_cmd, black_tile_of, hz]
    · simp [black_tile_cmd, hz]

theorem black_tile_rows (s : State) (l : List Nat) :
    l.flatMap (fun i => (List.range TILE_Y).flatMap fun j => black_tile_cmd s i j) =
      ((l.flatMap fun i => (List.range TILE_Y).map fun j => (i, j)).filter
        fun c => decide (s.map_grid c.1 c.2 = 0)).map black_tile_of := by
  induction l with
  | nil => rfl
  | cons i l ih =>
    rw [List.flatMap_cons, List.flatMap_cons, ih, black_tile_row,
      List.filter_append, List.map_append]

/-- The black-tile loop emits one sprite per undiscovered cell, in loop
order. -/
theorem black_tile_cmds_eq (s : State) :
    black_tile_cmds s = (undiscovered_cells s).map black_tile_of :=
  black_tile_rows s (List.range TILE_X)

theorem is_black_tile_rock_cmds (s : State) :
    (rock_cmds s).filter is_black_tile = [] := by
  rw [List.filter_eq_nil_iff]
  intro c hc
  simp only [rock_cmds, List.mem_flatMap] at hc
  obtain ⟨i, _, hi⟩ := hc
  split at hi
  · simp only [List.mem_singleton] at hi
    subst hi
    simp [is_black_tile]
  · simp at hi

theorem is_black_tile_display_sprite (t : Int) (p : ℚ × ℚ) :
    is_black_tile (DrawCmd.sprite (display_sprite t) p) = false := by
  unfold display_sprite
  split_ifs <;> rfl

/-- The black-tile sprites of the draw list are those of the black-tile
loop. -/
theorem draw_black_tiles (mouse : ℚ × ℚ) (s : State) :
    (draw mouse s).filter is_black_tile
      = (undiscovered_cells s).map black_tile_of := by
  have hb : (black_tile_cmds s).filter is_black_tile = black_tile_cmds s := by
    rw [List.filter_eq_self]
    intro c hc
    rw [black_tile_cmds_eq, List.mem_map] at hc
    obtain ⟨a, _, rfl⟩ := hc
    rfl
  have hd := is_black_tile_display_sprite s.display_text (1 / 2, (13 / 2) / 7)
  unfold draw
  rw [List.filter_append, List.filter_append, List.filter_append, hb,
    is_black_tile_rock_cmds, black_tile_cmds_eq]
  simp only [List.filter_cons, List.filter_nil, hd]
  simp only [is_black_tile, Bool.false_eq_true, if_false, List.append_nil,
    List.nil_append]

theorem undiscovered_length (s : State) :
    (undiscovered_cells s).length = TILE_X * TILE_Y - discovered_count s := by
  have h := List.length_eq_countP_add_countP
    (fun c : Nat × Nat => decide (s.map_grid c.1 c.2 ≠ 0)) grid_cells
  have hl : grid_cells.length = 30 := by decide
  have he : List.countP (fun a => decide ¬(fun c : Nat × Nat => decide (s.map_grid c.1 c.2 ≠ 0)) a = true) grid_cells
      = (undiscovered_cells s).length := by
    rw [undiscovered_cells, ← List.countP_eq_length_filter]
    congr 1
    funext c
    simp
  rw [he, hl] at h
  have hc : TILE_X * TILE_Y = 30 := rfl
  rw [hc]
  unfold discovered_count
  omega

theorem discovered_count_of_single (s : State)
    (h : ∀ x y : Int, s.map_grid x y = if x = 2 ∧ y = 2 then 1 else 0) :
    discovered_count s = 1 := by
  unfold discovered_count
  simp only [h]
  decide

/-- C7: for every state, the draw list starts with the map sprite at the
world origin and holds one black-tile sprite per undiscovered cell, that is
`TILE_X * TILE_Y` minus the number of discovered cells; for the initial
state, before and after its first update block, that is 29 black tiles. -/
theorem draw_map_first_and_fog_count (mouse : ℚ × ℚ) (s : State) (r : Nat) :
    (draw mouse s).head? = some (DrawCmd.sprite Sprite.map (0, 0)) ∧
    (draw mouse s).filter is_black_tile
      = (undiscovered_cells s).map black_tile_of ∧
    ((draw mouse s).filter is_black_tile).length
      = TILE_X * TILE_Y - discovered_count s ∧
    ((draw mouse (init r)).filter is_black_tile).length = 29 ∧
    ∃ s1 : State, update (init r) = some s1 ∧
      ((draw mouse s1).filter is_black_tile).length = 29 := by
  refine ⟨rfl, draw_black_tiles mouse s, ?_, ?_, _, update_eq (init r) (init_inGrid r), ?_⟩
  · rw [draw_black_tiles, List.length_map, undiscovered_length]
  · rw [draw_black_tiles, List.length_map, undiscovered_length,
      discovered_count_of_single _ (fun _ _ => rfl)]
    rfl
  · have h1 : discovered_count
        { init r with
          map_grid := fun x y =>
            if x = (init r).man_xy.1 ∧ y = (init r).man_xy.2 then 1
            else (init r).map_grid x y
          display_text := next_display_text (init r) } = 1 := by
      apply discovered_count_of_single
      intro x y
      simp only [init]
      split_ifs <;> simp_all
    rw [draw_black_tiles, List.length_map, undiscovered_length, h1]
    rfl

/-! ## Position of the black tiles -/

theorem truncToInt_of_unit (q : ℚ) (h0 : 0 ≤ q) (h1 : q < 1) : truncToInt q = 0 := by
  unfold truncToInt
  rw [if_pos h0, Int.floor_eq_zero_iff]
  exact ⟨h0, h1⟩

theorem coord_u_eq_zero (i : Int) (h0 : 0 ≤ i) (h1 : i < TILE_X) : coord_u i = 0 := by
  have a0 : (0 : ℚ) ≤ (i : ℚ) := by exact_mod_cast h0
  have a1 : (i : ℚ) ≤ 4 := by
    have : i ≤ 4 := by simp only [Nat.cast_ofNat] at h1; omega
    exact_mod_cast this
  apply truncToInt_of_unit
  · positivity
  · rw [div_lt_one (by norm_num)]; linarith

theorem coord_v_eq_zero (j : Int) (h0 : 0 ≤ j) (h1 : j < TILE_Y) : coord_v j = 0 := by
  have a0 : (0 : ℚ) ≤ (j : ℚ) := by exact_mod_cast h0
  have a1 : (j : ℚ) ≤ 5 := by
    have : j ≤ 5 := by simp only [Nat.cast_ofNat] at h1; omega
    exact_mod_cast this
  apply truncToInt_of_unit
  · positivity
  · rw [div_lt_one (by norm_num)]; linarith

theorem mem_grid_cells (c : Nat × Nat) (h : c ∈ grid_cells) :
    c.1 < TILE_X ∧ c.2 < TILE_Y := by
  simp only [grid_cells, List.mem_flatMap, List.mem_map, List.mem_range] at h
  obtain ⟨i, hi, j, hj, rfl⟩ := h
  exact ⟨hi, hj⟩

/-- Every black tile of the loop is drawn at the world origin, whatever
its cell. -/
theorem black_tile_of_grid_cell (c : Nat × Nat) (h : c ∈ grid_cells) :
    black_tile_of c = DrawCmd.sprite Sprite.black_tile (0, 0) := by
  obtain ⟨h1, h2⟩ := mem_grid_cells c h
  have hu := coord_u_eq_zero (c.1 : Int) (by positivity) (by exact_mod_cast h1)
  have hv := coord_v_eq_zero (c.2 : Int) (by positivity) (by exact_mod_cast h2)
  simp [black_tile_of, hu, hv]

/-- C8 (the code collapses the fog): in the initial state the cells `(0,0)`
and `(1,0)` are distinct and undiscovered, and the black-tile sprites the
loop emits for them have the same position, the world origin; so has every
black-tile sprite of every draw list. -/
theorem fog_tiles_collapse_to_origin :
    (init 0).map_grid 0 0 = 0 ∧ (init 0).map_grid 1 0 = 0 ∧
    black_tile_cmd (init 0) 0 0 = [DrawCmd.sprite Sprite.black_tile (0, 0)] ∧
    black_tile_cmd (init 0) 1 0 = [DrawCmd.sprite Sprite.black_tile (0, 0)] ∧
    ∀ (mouse : ℚ × ℚ) (s : State) (c : DrawCmd),
      c ∈ (draw mouse s).filter is_black_tile →
        c = DrawCmd.sprite Sprite.black_tile (0, 0) := by
  have h00 := black_tile_of_grid_cell (0, 0) (by decide)
  have h10 := black_tile_of_grid_cell (1, 0) (by decide)
  refine ⟨rfl, rfl, ?_, ?_, ?_⟩
  · simpa [black_tile_cmd, init, black_tile_of] using h00
  · simpa [black_tile_cmd, init, black_tile_of] using h10
  · intro mouse s c hc
    rw [draw_black_tiles, List.mem_map] at hc
    obtain ⟨a, ha, rfl⟩ := hc
    exact black_tile_of_grid_cell a (List.mem_of_mem_filter ha)

/-! ## Symmetry of the passability table -/

/-- Going down from a cell is allowed exactly when going up from the cell
below it is. -/
theorem down_up_symmetric (x y : Int) (h : inGrid (x, y)) (h2 : inGrid (x, y + 1)) :
    (tile_dir x y).down = (tile_dir x (y + 1)).up := by
  simp only [inGrid, Nat.cast_ofNat] at h h2
  obtain ⟨hx0, hx1, hy0, hy1⟩ := h
  obtain ⟨_, _, _, hy2⟩ := h2
  interval_cases x <;> interval_cases y <;> decide

/-- Going right from a cell and going left from the cell to its right are
allowed together or not at all, except at the eight pairs of
`one_way_pairs`. -/
theorem right_left_symmetric_iff (x y : Int) (h : inGrid (x, y))
    (h2 : inGrid (x + 1, y)) :
    (tile_dir x y).right = (tile_dir (x + 1) y).left ↔
      ((x, y), (x + 1, y)) ∉ one_way_pairs := by
  simp only [inGrid, Nat.cast_ofNat] at h h2
  obtain ⟨hx0, _, hy0, hy1⟩ := h
  obtain ⟨_, hx2, _, _⟩ := h2
  interval_cases x <;> interval_cases y <;> decide

/-- C9 (the table is not symmetric): `(0,1)` and `(1,1)` are horizontally
adjacent cells of the grid; the table lets the player move right from `(0,1)`
into `(1,1)` but not left from `(1,1)` into `(0,1)`. Likewise it allows left
from `(2,0)` into `(1,0)` but not right from `(1,0)`. In play: the keys left,
left, up bring the player from the start to `(0,1)`, right moves it to
`(1,1)`, and left then leaves it at `(1,1)`. -/
theorem right_left_asymmetric :
    inGrid (0, 1) ∧ inGrid (1, 1) ∧
    (tile_dir 0 1).right = true ∧ (tile_dir 1 1).left = false ∧
    (tile_dir 2 0).left = true ∧ (tile_dir 1 0).right = false ∧
    (handle_keys [Key.LEFT, Key.LEFT, Key.UP] (init 0)).map State.man_xy
      = some (0, 1) ∧
    (handle_keys [Key.LEFT, Key.LEFT, Key.UP, Key.RIGHT] (init 0)).map
      State.man_xy = some (1, 1) ∧
    (handle_keys [Key.LEFT, Key.LEFT, Key.UP, Key.RIGHT, Key.LEFT] (init 0)).map
      State.man_xy = some (1, 1) := by
  decide

/-! ## Every reward placement can be won -/

/-- The moves of `rock_path k` are all passable and end on the cell of rock
`k`. -/
theorem walk_rock_path : ∀ k : Fin ROCKS, walk (rock_path k) (2, 2) = some (rock_loc k) := by
  decide

/-- With the money bag under rock `k`, the keys of `rock_path k` bring the
player from the start onto that rock, and the interact key then finds the
reward. -/
theorem rock_path_wins : ∀ k : Fin ROCKS,
    (handle_keys ((rock_path k).map Direction.key)
      { init 0 with money_tile := k }).map State.man_xy = some (rock_loc k) ∧
    (handle_keys ((rock_path k).map Direction.key ++ [Key.SPACE])
      { init 0 with money_tile := k }).map State.found = some true := by
  decide

/-- Arrow key-downs follow a walk: when the moves are passable from the
player cell, handling their keys moves the player to the end of the walk. -/
theorem handle_keys_of_walk (moves : List Direction) :
    ∀ (s : State) (q : Int × Int), walk moves s.man_xy = some q →
      ∃ s1 : State, handle_keys (moves.map Direction.key) s = some s1 ∧
        s1.man_xy = q := by
  induction moves with
  | nil =>
    intro s q h
    simp only [walk, Option.some.injEq] at h
    exact ⟨s, rfl, h⟩
  | cons d ds ih =>
    intro s q h
    simp only [walk] at h
    split at h
    · rename_i hc
      have hk := handle_keydown_direction s d hc.1
      rw [if_pos hc.2] at hk
      obtain ⟨s1, h1, h2⟩ := ih
        { s with man_xy := (s.man_xy.1 + d.offset.1, s.man_xy.2 + d.offset.2) } q h
      exact ⟨s1, by simp only [List.map_cons, handle_keys, hk, Option.some_bind, h1], h2⟩
    · cases h

/-- C11: each of the five rock cells is reached from `(2,2)` by a list of
passable moves of the authored table; and from the initial state, for any
outcome of `rand()`, some list of arrow key-downs puts the player on the rock
that hides the money bag, and one interact key-down after them ends with
`found` true. -/
theorem game_winnable :
    (List.finRange ROCKS).map rock_loc
      = [(4, 0), (0, 1), (0, 2), (2, 4), (4, 5)] ∧
    (∀ k : Fin ROCKS, ∃ moves : List Direction,
      walk moves (2, 2) = some (rock_loc k)) ∧
    ∀ r : Nat, ∃ moves : List Direction,
      (handle_keys (moves.map Direction.key) (init r)).map State.man_xy
        = some (rock_loc (init r).money_tile) ∧
      (handle_keys (moves.map Direction.key ++ [Key.SPACE]) (init r)).map
        State.found = some true := by
  refine ⟨by decide, fun k => ⟨rock_path k, walk_rock_path k⟩, fun r => ?_⟩
  exact ⟨rock_path (init r).money_tile, rock_path_wins (init r).money_tile⟩

end Game
